import Mathlib

/-!
Verification of the analytic acquisition functions of
`botorch/acquisition/analytic.py` (Expected Improvement, Posterior Mean,
Probability of Improvement, Upper Confidence Bound, Constrained Expected
Improvement, Noisy Expected Improvement).

We shallowly embed the numeric part of the code over the reals: tensors
become lists (one entry per batch element, the trailing `1 x d` candidate
dimensions being consumed by the model's `posterior` map, which we keep
abstract as a function from candidate points to posterior marginals), the
`torch.distributions.Normal` density and CDF become the mathematical
standard-normal density and its integral, and `clamp_min` becomes `max`.
The construction-time validation logic is embedded computably, with the
float bounds of the constraint dictionary represented as rationals.
-/

open MeasureTheory Set Filter

namespace BoAnalytic

/-- Embeds `torch.Tensor.clamp_min`: pointwise maximum with the given floor. -/
def clampMin (x m : ℝ) : ℝ := max x m

/-- Embeds `torch.exp(Normal(0,1).log_prob(u))`: the standard normal density
`phi(x) = exp(-x^2/2) / sqrt(2*pi)`. -/
noncomputable def stdNormalPDF (x : ℝ) : ℝ :=
  (Real.sqrt (2 * Real.pi))⁻¹ * Real.exp (-x ^ 2 / 2)

/-- Embeds `Normal(0,1).cdf(u)`: the standard normal cumulative distribution
function, the integral of the density over `(-infinity, x]`. -/
noncomputable def stdNormalCDF (x : ℝ) : ℝ := ∫ t in Set.Iic x, stdNormalPDF t

/-- Embeds `Normal(loc, scale).cdf(x)` as used by `_construct_dist` in
`_compute_prob_feas`: the CDF of a normal with the given location and scale. -/
noncomputable def normalCDF (loc scale x : ℝ) : ℝ := stdNormalCDF ((x - loc) / scale)

/-- Embeds the per-batch-element body of `ExpectedImprovement.forward`
(analytic.py lines 129-143): `sigma = variance.clamp_min(1e-9).sqrt()`,
`u = (mean - best_f) / sigma`, negated when not maximizing, and
`ei = sigma * (updf + u * ucdf)`. -/
noncomputable def eiCore (mean variance best_f : ℝ) (maximize : Bool) : ℝ :=
  let sigma := Real.sqrt (clampMin variance 1e-9)
  let u0 := (mean - best_f) / sigma
  let u := if maximize then u0 else -u0
  sigma * (stdNormalPDF u + u * stdNormalCDF u)

/-- Embeds `ExpectedImprovement.forward` on a candidate batch `X` with a scalar
`best_f`: the model's posterior marginal (mean, variance) is computed at each
batch element and the analytic EI formula is applied elementwise. -/
noncomputable def ExpectedImprovement.forward {α : Type} (post : α → ℝ × ℝ)
    (best_f : ℝ) (maximize : Bool) (X : List α) : List ℝ :=
  X.map fun x => eiCore (post x).1 (post x).2 best_f maximize

/-- Embeds `ExpectedImprovement.forward` when `best_f` is a `b`-dim tensor:
`best_f.expand_as(mean)` matches the batch dimension elementwise. -/
noncomputable def ExpectedImprovement.forwardBatchedBestF {α : Type}
    (post : α → ℝ × ℝ) (best_fs : List ℝ) (maximize : Bool) (X : List α) : List ℝ :=
  List.zipWith (fun x bf => eiCore (post x).1 (post x).2 bf maximize) X best_fs

/-- Embeds `PosteriorMean.forward` (analytic.py lines 158-171): returns the
posterior mean at each batch element, reshaped to the batch shape. -/
def PosteriorMean.forward {α : Type} (post : α → ℝ × ℝ) (X : List α) : List ℝ :=
  X.map fun x => (post x).1

/-- Embeds the per-batch-element body of `ProbabilityOfImprovement.forward`
(analytic.py lines 223-233): `sigma = variance.sqrt().clamp_min(1e-9)`,
`u = (mean - best_f) / sigma`, negated when not maximizing, result `cdf(u)`. -/
noncomputable def poiCore (mean variance best_f : ℝ) (maximize : Bool) : ℝ :=
  let sigma := clampMin (Real.sqrt variance) 1e-9
  let u0 := (mean - best_f) / sigma
  let u := if maximize then u0 else -u0
  stdNormalCDF u

/-- Embeds `ProbabilityOfImprovement.forward` on a candidate batch. -/
noncomputable def ProbabilityOfImprovement.forward {α : Type} (post : α → ℝ × ℝ)
    (best_f : ℝ) (maximize : Bool) (X : List α) : List ℝ :=
  X.map fun x => poiCore (post x).1 (post x).2 best_f maximize

/-- Embeds the per-batch-element body of `UpperConfidenceBound.forward`
(analytic.py lines 287-296): `delta = (beta * variance).sqrt()`, returning
`mean + delta` when maximizing and `mean - delta` otherwise. -/
noncomputable def ucbCore (mean variance beta : ℝ) (maximize : Bool) : ℝ :=
  let delta := Real.sqrt (beta * variance)
  if maximize then mean + delta else mean - delta

/-- Embeds `UpperConfidenceBound.forward` on a candidate batch. -/
noncomputable def UpperConfidenceBound.forward {α : Type} (post : α → ℝ × ℝ)
    (beta : ℝ) (maximize : Bool) (X : List α) : List ℝ :=
  X.map fun x => ucbCore (post x).1 (post x).2 beta maximize

/-- The three constraint groups built by
`ConstrainedExpectedImprovement._preprocess_constraint_bounds`: parallel lists
of output indices and bounds for lower-only, upper-only, and two-sided
constraints, in dictionary iteration order.  The bound type is a parameter so
that the validation logic can be stated computably (over `ℚ`) and the
evaluation logic over `ℝ`. -/
structure ConstraintGroups (β : Type) where
  lowerInds : List ℕ
  lowerBnds : List β
  upperInds : List ℕ
  upperBnds : List β
  bothInds : List ℕ
  bothBnds : List (β × β)
deriving Repr, DecidableEq

/-- The empty grouping (no constraints classified yet). -/
def ConstraintGroups.empty (β : Type) : ConstraintGroups β := ⟨[], [], [], [], [], []⟩

/-- Embeds the classification loop of `_preprocess_constraint_bounds`
(analytic.py lines 403-414): each `(index, (lower, upper))` entry is put into
the two-sided group (after checking `upper <= lower`, which raises a
`ValueError`), the lower-only group, or the upper-only group; an entry with
both bounds `None` matches no branch of the `if`/`elif` chain and is skipped. -/
def classifyConstraints {β : Type} [LinearOrder β] :
    List (ℕ × Option β × Option β) → Except String (ConstraintGroups β)
  | [] => Except.ok (ConstraintGroups.empty β)
  | (k, some lo, some hi) :: rest =>
      if hi ≤ lo then Except.error "Upper bound is less than the lower bound."
      else Except.map
        (fun r => { r with bothInds := k :: r.bothInds, bothBnds := (lo, hi) :: r.bothBnds })
        (classifyConstraints rest)
  | (k, some lo, none) :: rest =>
      Except.map
        (fun r => { r with lowerInds := k :: r.lowerInds, lowerBnds := lo :: r.lowerBnds })
        (classifyConstraints rest)
  | (k, none, some hi) :: rest =>
      Except.map
        (fun r => { r with upperInds := k :: r.upperInds, upperBnds := hi :: r.upperBnds })
        (classifyConstraints rest)
  | (_, none, none) :: rest => classifyConstraints rest

/-- Embeds `ConstrainedExpectedImprovement._preprocess_constraint_bounds`
(analytic.py lines 383-423): raises if there is no constraint, if the
objective index is among the constrained indices, or (inside the loop) if a
two-sided bound has `upper <= lower`; otherwise returns the three groups. -/
def preprocessConstraintBounds {β : Type} [LinearOrder β] (objective_index : ℕ)
    (constraints : List (ℕ × Option β × Option β)) :
    Except String (ConstraintGroups β) :=
  if constraints.length = 0 then Except.error "There must be at least one constraint."
  else if objective_index ∈ constraints.map Prod.fst then
    Except.error "Output corresponding to objective should not be a constraint."
  else classifyConstraints constraints

/-- Returns `true` exactly when construction succeeded (no exception raised). -/
def exceptOk {ε α : Type} : Except ε α → Bool
  | Except.ok _ => true
  | Except.error _ => false

/-- Embeds the per-batch-element body of
`ConstrainedExpectedImprovement._compute_prob_feas` (analytic.py lines
425-459): the feasibility probability starts at 1 and, for each non-empty
constraint group, is multiplied by the product over the group of the
per-constraint probabilities computed from the normal CDF at the stored
bounds (`means` and `sigmas` are indexed by output). -/
noncomputable def computeProbFeas (means sigmas : List ℝ) (c : ConstraintGroups ℝ) : ℝ :=
  let p0 : ℝ := 1
  let p1 :=
    if 0 < c.lowerInds.length then
      p0 * (List.zipWith
        (fun i b => 1 - normalCDF (means.getD i 0) (sigmas.getD i 0) b)
        c.lowerInds c.lowerBnds).prod
    else p0
  let p2 :=
    if 0 < c.upperInds.length then
      p1 * (List.zipWith
        (fun i b => normalCDF (means.getD i 0) (sigmas.getD i 0) b)
        c.upperInds c.upperBnds).prod
    else p1
  if 0 < c.bothInds.length then
    p2 * (List.zipWith
      (fun i b => normalCDF (means.getD i 0) (sigmas.getD i 0) b.2
        - normalCDF (means.getD i 0) (sigmas.getD i 0) b.1)
      c.bothInds c.bothBnds).prod
  else p2

/-- The unconstrained-EI factor computed by
`ConstrainedExpectedImprovement.forward` on the objective marginal
(analytic.py lines 362-378): here `sigmas = variance.sqrt().clamp_min(1e-9)`
(square root first, floor second), then the same `u`/`phi`/`Phi` combination
as `ExpectedImprovement.forward`. -/
noncomputable def ceiObjFactor (mean variance best_f : ℝ) (maximize : Bool) : ℝ :=
  let sigma := clampMin (Real.sqrt variance) 1e-9
  let u0 := (mean - best_f) / sigma
  let u := if maximize then u0 else -u0
  sigma * (stdNormalPDF u + u * stdNormalCDF u)

/-- Embeds `ConstrainedExpectedImprovement.forward` on a candidate batch: the
multi-output posterior gives a list of means and of variances per batch
element; the objective marginal at `objective_index` yields the EI factor,
which is multiplied by the feasibility probability. -/
noncomputable def ConstrainedExpectedImprovement.forward {α : Type}
    (post : α → List ℝ × List ℝ) (best_f : ℝ) (objective_index : ℕ)
    (c : ConstraintGroups ℝ) (maximize : Bool) (X : List α) : List ℝ :=
  X.map fun x =>
    let means := (post x).1
    let sigmas := (post x).2.map fun v => clampMin (Real.sqrt v) 1e-9
    let mean_obj := means.getD objective_index 0
    let sigma_obj := sigmas.getD objective_index 0
    let u0 := (mean_obj - best_f) / sigma_obj
    let u := if maximize then u0 else -u0
    (sigma_obj * (stdNormalPDF u + u * stdNormalCDF u))
      * computeProbFeas means sigmas c

/-- Embeds `Tensor.max(dim=-1)[0]` on a row of sampled targets. -/
def tensorMaxLastDim : List ℝ → ℝ
  | [] => 0
  | x :: xs => xs.foldl max x

/-- Embeds `Tensor.min(dim=-1)[0]` on a row of sampled targets. -/
def tensorMinLastDim : List ℝ → ℝ
  | [] => 0
  | x :: xs => xs.foldl min x

/-- Embeds the `best_f` computation of `NoisyExpectedImprovement.__init__`
(analytic.py lines 515-518): `Y_fantasized.max(dim=-1)[0]` when maximizing,
`Y_fantasized.min(dim=-1)[0]` otherwise, one value per fantasy row. -/
def neiBestF (fantasies : List (List ℝ)) (maximize : Bool) : List ℝ :=
  if maximize then fantasies.map tensorMaxLastDim else fantasies.map tensorMinLastDim

/-- Embeds the model-type validation of `NoisyExpectedImprovement.__init__`
(analytic.py lines 500-503): the constructor raises `UnsupportedError` unless
the model is a `FixedNoiseGP`; no other construction-time check exists, in
particular `num_fantasies` is never inspected. -/
def NoisyExpectedImprovement.initValidation (modelIsFixedNoiseGP : Bool)
    (num_fantasies : ℤ) : Except String Unit :=
  if modelIsFixedNoiseGP then Except.ok ()
  else Except.error "Only FixedNoiseGPs are currently supported for fantasy NEI"

/-- Mean over the last (fantasy) dimension: embeds `Tensor.mean(dim=-1)`. -/
noncomputable def listMean (l : List ℝ) : ℝ := l.sum / l.length

/-- Embeds `ExpectedImprovement.forward` evaluated through the fantasy-batched
model on the unsqueezed candidate batch of shape `b x num_fantasies x 1 x d`:
`view_shape` is `b x num_fantasies`, and `best_f.expand_as(mean)` broadcasts
the per-fantasy `best_f` along the candidate dimension, giving a
`b x num_fantasies` grid of EI values. -/
noncomputable def eiForwardGrid (grid : List (List (ℝ × ℝ))) (best_fs : List ℝ)
    (maximize : Bool) : List (List ℝ) :=
  grid.map fun row =>
    List.zipWith (fun p bf => eiCore p.1 p.2 bf maximize) row best_fs

/-- Embeds `NoisyExpectedImprovement.forward` (analytic.py lines 522-533):
`super().forward(X.unsqueeze(-3)).mean(dim=-1)` — each candidate is broadcast
against every fantasy (the fantasy posterior yields one marginal per fantasy),
EI is evaluated on the resulting grid, and the mean over the fantasy
dimension is taken, returning one value per batch element. -/
noncomputable def NoisyExpectedImprovement.forward {α : Type}
    (fantasyPost : α → List (ℝ × ℝ)) (best_fs : List ℝ) (maximize : Bool)
    (X : List α) : List ℝ :=
  (eiForwardGrid (X.map fantasyPost) best_fs maximize).map listMean

/-! ### Spec-side definitions

These follow the wording of the specification (sections 4.2 and 4.6) rather
than the code; they are compared against the code-side definitions above in
the refinement-style theorems below. -/

/-- Specification wording of the EI standard deviation: the variance is
floor-clamped to `1e-9` before the square root. -/
noncomputable def eiSigmaSpec (variance : ℝ) : ℝ := Real.sqrt (max variance 1e-9)

/-- Specification wording of the EI normalized improvement:
`u = (mean - best_f) / sigma`, negated when minimizing. -/
noncomputable def eiUSpec (mean variance best_f : ℝ) (maximize : Bool) : ℝ :=
  if maximize then (mean - best_f) / eiSigmaSpec variance
  else -((mean - best_f) / eiSigmaSpec variance)

/-- Specification wording of the EI value:
`EI = sigma * (phi(u) + u * Phi(u))`. -/
noncomputable def eiSpecValue (mean variance best_f : ℝ) (maximize : Bool) : ℝ :=
  eiSigmaSpec variance *
    (stdNormalPDF (eiUSpec mean variance best_f maximize)
      + eiUSpec mean variance best_f maximize
        * stdNormalCDF (eiUSpec mean variance best_f maximize))

/-- Specification wording of the feasibility probability (section 4.6):
start at 1 and multiply in, per group, the product of the per-constraint
probabilities `1 - Phi((lower - mu_i)/sigma_i)`, `Phi((upper - mu_i)/sigma_i)`
and `Phi((upper - mu_i)/sigma_i) - Phi((lower - mu_i)/sigma_i)`. -/
noncomputable def probFeasSpec (means sigmas : List ℝ) (c : ConstraintGroups ℝ) : ℝ :=
  1 * (List.zipWith
        (fun i b => 1 - stdNormalCDF ((b - means.getD i 0) / sigmas.getD i 0))
        c.lowerInds c.lowerBnds).prod
    * (List.zipWith
        (fun i b => stdNormalCDF ((b - means.getD i 0) / sigmas.getD i 0))
        c.upperInds c.upperBnds).prod
    * (List.zipWith
        (fun i b => stdNormalCDF ((b.2 - means.getD i 0) / sigmas.getD i 0)
          - stdNormalCDF ((b.1 - means.getD i 0) / sigmas.getD i 0))
        c.bothInds c.bothBnds).prod

/-! ### Facts about the standard normal density and CDF -/

lemma stdNormalPDF_pos (x : ℝ) : 0 < stdNormalPDF x := by
  unfold stdNormalPDF
  positivity

lemma stdNormalPDF_fun_eq :
    stdNormalPDF = fun x : ℝ =>
      (Real.sqrt (2 * Real.pi))⁻¹ * Real.exp (-(1 / 2 : ℝ) * x ^ 2) := by
  funext x
  unfold stdNormalPDF
  rw [show -x ^ 2 / 2 = -(1 / 2 : ℝ) * x ^ 2 by ring]

lemma integrable_stdNormalPDF : Integrable stdNormalPDF := by
  rw [stdNormalPDF_fun_eq]
  exact (integrable_exp_neg_mul_sq (by norm_num)).const_mul _

lemma integrable_mul_stdNormalPDF : Integrable fun x : ℝ => x * stdNormalPDF x := by
  have h : Integrable fun x : ℝ => x * Real.exp (-(1 / 2 : ℝ) * x ^ 2) :=
    integrable_mul_exp_neg_mul_sq (by norm_num)
  refine (h.const_mul (Real.sqrt (2 * Real.pi))⁻¹).congr ?_
  filter_upwards with x
  rw [stdNormalPDF_fun_eq]
  ring

lemma stdNormalCDF_nonneg (x : ℝ) : 0 ≤ stdNormalCDF x :=
  setIntegral_nonneg measurableSet_Iic fun t _ => (stdNormalPDF_pos t).le

lemma hasDerivAt_neg_stdNormalPDF (x : ℝ) :
    HasDerivAt (fun t : ℝ => -stdNormalPDF t) (x * stdNormalPDF x) x := by
  have h1 : HasDerivAt (fun t : ℝ => -t ^ 2 / 2) (-x) x := by
    have h0 := ((hasDerivAt_pow 2 x).neg).div_const 2
    convert h0 using 1
    push_cast
    ring
  have h2 : HasDerivAt (fun t : ℝ => Real.exp (-t ^ 2 / 2))
      (Real.exp (-x ^ 2 / 2) * -x) x := h1.exp
  have h3 : HasDerivAt
      (fun t : ℝ => -((Real.sqrt (2 * Real.pi))⁻¹ * Real.exp (-t ^ 2 / 2)))
      (-((Real.sqrt (2 * Real.pi))⁻¹ * (Real.exp (-x ^ 2 / 2) * -x))) x :=
    (HasDerivAt.const_mul (Real.sqrt (2 * Real.pi))⁻¹ h2).neg
  have hval : -((Real.sqrt (2 * Real.pi))⁻¹ * (Real.exp (-x ^ 2 / 2) * -x))
      = x * stdNormalPDF x := by
    unfold stdNormalPDF
    ring
  rw [hval] at h3
  exact h3

lemma tendsto_stdNormalPDF_atBot : Tendsto stdNormalPDF atBot (nhds 0) := by
  have h1 : Tendsto (fun x : ℝ => -x ^ 2 / 2) atBot atBot := by
    have ha : Tendsto (fun x : ℝ => x ^ 2) atBot atTop := by
      have hc := (tendsto_pow_atTop (by norm_num : (2 : ℕ) ≠ 0)).comp
        (tendsto_abs_atBot_atTop : Tendsto (fun x : ℝ => |x|) atBot atTop)
      refine hc.congr fun x => ?_
      simp [sq_abs]
    have hb : Tendsto (fun x : ℝ => -x ^ 2) atBot atBot :=
      tendsto_neg_atTop_atBot.comp ha
    exact hb.atBot_div_const (by norm_num)
  have h2 : Tendsto (fun x : ℝ => Real.exp (-x ^ 2 / 2)) atBot (nhds 0) :=
    Real.tendsto_exp_atBot.comp h1
  have h3 := h2.const_mul (Real.sqrt (2 * Real.pi))⁻¹
  rw [mul_zero] at h3
  exact h3.congr fun x => by unfold stdNormalPDF; ring

lemma integral_Iic_mul_stdNormalPDF (u : ℝ) :
    ∫ t in Set.Iic u, t * stdNormalPDF t = -stdNormalPDF u := by
  have hderiv : ∀ x ∈ Set.Iic u,
      HasDerivAt (fun t : ℝ => -stdNormalPDF t) (x * stdNormalPDF x) x :=
    fun x _ => hasDerivAt_neg_stdNormalPDF x
  have hint : IntegrableOn (fun t : ℝ => t * stdNormalPDF t) (Set.Iic u) :=
    integrable_mul_stdNormalPDF.integrableOn
  have htend : Tendsto (fun t : ℝ => -stdNormalPDF t) atBot (nhds 0) := by
    simpa using Filter.Tendsto.neg tendsto_stdNormalPDF_atBot
  simpa using integral_Iic_of_hasDerivAt_of_tendsto' hderiv hint htend

lemma stdNormalCDF_le_of_neg {u : ℝ} (hu : u < 0) :
    stdNormalCDF u ≤ stdNormalPDF u / (-u) := by
  have hu' : u ≠ 0 := ne_of_lt hu
  have hint1 : IntegrableOn stdNormalPDF (Set.Iic u) :=
    integrable_stdNormalPDF.integrableOn
  have hint2 : IntegrableOn (fun t : ℝ => u⁻¹ * (t * stdNormalPDF t)) (Set.Iic u) :=
    (integrable_mul_stdNormalPDF.const_mul u⁻¹).integrableOn
  have hmono : stdNormalCDF u ≤ ∫ t in Set.Iic u, u⁻¹ * (t * stdNormalPDF t) := by
    unfold stdNormalCDF
    refine setIntegral_mono_on hint1 hint2 measurableSet_Iic ?_
    intro t ht
    have hinv : u⁻¹ ≤ 0 := inv_nonpos.2 hu.le
    have h1 := mul_le_mul_of_nonpos_left ht hinv
    rw [inv_mul_cancel₀ hu'] at h1
    calc stdNormalPDF t = 1 * stdNormalPDF t := (one_mul _).symm
      _ ≤ u⁻¹ * t * stdNormalPDF t :=
          mul_le_mul_of_nonneg_right h1 (stdNormalPDF_pos t).le
      _ = u⁻¹ * (t * stdNormalPDF t) := by ring
  have hcalc : ∫ t in Set.Iic u, u⁻¹ * (t * stdNormalPDF t)
      = stdNormalPDF u / (-u) := by
    rw [MeasureTheory.integral_mul_left, integral_Iic_mul_stdNormalPDF, mul_neg,
      ← div_eq_inv_mul, div_neg]
  linarith [hmono, hcalc.symm.le]

lemma stdNormalPDF_add_mul_cdf_nonneg (u : ℝ) :
    0 ≤ stdNormalPDF u + u * stdNormalCDF u := by
  rcases le_or_lt 0 u with h | h
  · have h1 := stdNormalCDF_nonneg u
    have h2 := (stdNormalPDF_pos u).le
    positivity
  · have hu' : u ≠ 0 := ne_of_lt h
    have hm := stdNormalCDF_le_of_neg h
    have h1 := mul_le_mul_of_nonpos_left hm h.le
    have h2 : u * (stdNormalPDF u / (-u)) = -stdNormalPDF u := by
      rw [div_neg, mul_neg, mul_div_assoc', mul_comm u (stdNormalPDF u),
        mul_div_assoc, div_self hu', mul_one]
    linarith [h1, h2.symm.le]

/-! ### Small list and Except helpers -/

lemma prodIfLength {γ δ : Type} (f : γ → δ → ℝ) (l : List γ) (b : List δ) (p : ℝ) :
    (if 0 < l.length then p * (List.zipWith f l b).prod else p)
      = p * (List.zipWith f l b).prod := by
  cases l with
  | nil => simp
  | cons x xs =>
    cases b with
    | nil => simp
    | cons y ys => simp

lemma exceptOk_map {ε γ δ : Type} (f : γ → δ) (x : Except ε γ) :
    exceptOk (Except.map f x) = exceptOk x := by
  cases x <;> rfl

lemma cons_constraint_iff {β : Type} [LinearOrder β]
    (e : ℕ × Option β × Option β) (rest : List (ℕ × Option β × Option β))
    (h : ∀ lo hi, e.2 = (some lo, some hi) → lo < hi) :
    (∀ e' ∈ e :: rest, ∀ lo hi, e'.2 = (some lo, some hi) → lo < hi) ↔
      ∀ e' ∈ rest, ∀ lo hi, e'.2 = (some lo, some hi) → lo < hi := by
  constructor
  · intro hall e' he' lo hi heq
    exact hall e' (List.mem_cons_of_mem _ he') lo hi heq
  · intro hrest e' he' lo hi heq
    rcases List.mem_cons.1 he' with rfl | hm
    · exact h lo hi heq
    · exact hrest e' hm lo hi heq

lemma classify_ok_iff {β : Type} [LinearOrder β]
    (cs : List (ℕ × Option β × Option β)) :
    exceptOk (classifyConstraints cs) = true ↔
      ∀ e ∈ cs, ∀ lo hi, e.2 = (some lo, some hi) → lo < hi := by
  induction cs with
  | nil => simp [classifyConstraints, exceptOk]
  | cons e rest ih =>
    obtain ⟨k, olo, ohi⟩ := e
    cases olo with
    | none =>
      cases ohi with
      | none =>
        have heq : exceptOk (classifyConstraints ((k, none, none) :: rest))
            = exceptOk (classifyConstraints rest) := by
          rw [classifyConstraints]
        rw [heq, ih]
        exact (cons_constraint_iff (k, none, none) rest
          (fun lo hi heq2 => by simp at heq2)).symm
      | some hi' =>
        have heq : exceptOk (classifyConstraints ((k, none, some hi') :: rest))
            = exceptOk (classifyConstraints rest) := by
          rw [classifyConstraints]
          exact exceptOk_map _ _
        rw [heq, ih]
        exact (cons_constraint_iff (k, none, some hi') rest
          (fun lo hi heq2 => by simp at heq2)).symm
    | some lo' =>
      cases ohi with
      | none =>
        have heq : exceptOk (classifyConstraints ((k, some lo', none) :: rest))
            = exceptOk (classifyConstraints rest) := by
          rw [classifyConstraints]
          exact exceptOk_map _ _
        rw [heq, ih]
        exact (cons_constraint_iff (k, some lo', none) rest
          (fun lo hi heq2 => by simp at heq2)).symm
      | some hi' =>
        by_cases hle : hi' ≤ lo'
        · have heq : exceptOk (classifyConstraints ((k, some lo', some hi') :: rest))
              = false := by
            rw [classifyConstraints, if_pos hle]
            rfl
          rw [heq]
          constructor
          · intro h
            exact absurd h (by simp)
          · intro h
            have hcon := h (k, some lo', some hi') (List.mem_cons_self _ _) lo' hi' rfl
            exact absurd hle (not_le.2 hcon)
        · have heq : exceptOk (classifyConstraints ((k, some lo', some hi') :: rest))
              = exceptOk (classifyConstraints rest) := by
            rw [classifyConstraints, if_neg hle]
            exact exceptOk_map _ _
          rw [heq, ih]
          refine (cons_constraint_iff (k, some lo', some hi') rest ?_).symm
          intro lo hi heq2
          simp at heq2
          obtain ⟨rfl, rfl⟩ := heq2
          exact not_le.1 hle

lemma max_sqrt_floor_eq {v : ℝ} (hv : 1e-9 ≤ v) :
    max (Real.sqrt v) 1e-9 = Real.sqrt v := by
  have h1 : (1e-9 : ℝ) ≤ Real.sqrt 1e-9 := by
    rw [Real.le_sqrt (by norm_num) (by norm_num)]
    norm_num
  have h2 : Real.sqrt 1e-9 ≤ Real.sqrt v := Real.sqrt_le_sqrt hv
  exact max_eq_left (h1.trans h2)

/-! ### Claim theorems -/

/-- C1: `ExpectedImprovement.forward` returns, at every batch element (with a
scalar or per-batch `best_f`), exactly `sigma * (phi(u) + u * Phi(u))` with
`sigma = sqrt(max(variance, 1e-9))` (variance floor-clamped before the square
root) and `u = (mean - best_f) / sigma`, negated when not maximizing. -/
theorem C1_ei_formula {α : Type} (post : α → ℝ × ℝ) (best_f : ℝ)
    (best_fs : List ℝ) (maximize : Bool) (X : List α) :
    ExpectedImprovement.forward post best_f maximize X
        = X.map (fun x => eiSpecValue (post x).1 (post x).2 best_f maximize)
      ∧ ExpectedImprovement.forwardBatchedBestF post best_fs maximize X
        = List.zipWith (fun x bf => eiSpecValue (post x).1 (post x).2 bf maximize)
            X best_fs :=
  ⟨rfl, rfl⟩

/-- C5: the value returned by `ExpectedImprovement` is non-negative for every
posterior mean, every variance, every `best_f` and either `maximize` flag. -/
theorem C5_ei_nonneg {α : Type} (post : α → ℝ × ℝ) (best_f : ℝ)
    (maximize : Bool) (X : List α) :
    (∀ mean variance bf : ℝ, ∀ m : Bool, 0 ≤ eiCore mean variance bf m) ∧
      ∀ y ∈ ExpectedImprovement.forward post best_f maximize X, 0 ≤ y := by
  have hcore : ∀ mean variance bf : ℝ, ∀ m : Bool, 0 ≤ eiCore mean variance bf m := by
    intro mean variance bf m
    unfold eiCore
    have hσ : 0 ≤ Real.sqrt (clampMin variance 1e-9) := Real.sqrt_nonneg _
    have hfac := stdNormalPDF_add_mul_cdf_nonneg
      (if m then (mean - bf) / Real.sqrt (clampMin variance 1e-9)
        else -((mean - bf) / Real.sqrt (clampMin variance 1e-9)))
    exact mul_nonneg hσ hfac
  refine ⟨hcore, ?_⟩
  intro y hy
  unfold ExpectedImprovement.forward at hy
  obtain ⟨x, _, rfl⟩ := List.mem_map.1 hy
  exact hcore _ _ _ _

/-- C6: on any posterior marginal, `UpperConfidenceBound` with
`maximize = true` minus `PosteriorMean` equals `sqrt(beta * variance)`, which
is non-negative and non-decreasing in `beta` for fixed variance. -/
theorem C6_ucb_minus_mean {α : Type} (post : α → ℝ × ℝ) (x : α)
    (beta beta' : ℝ) (hbeta : 0 ≤ beta) (hvar : 0 ≤ (post x).2)
    (hbb : beta ≤ beta') :
    (UpperConfidenceBound.forward post beta true [x]).headD 0
        - (PosteriorMean.forward post [x]).headD 0
      = Real.sqrt (beta * (post x).2)
    ∧ 0 ≤ (UpperConfidenceBound.forward post beta true [x]).headD 0
        - (PosteriorMean.forward post [x]).headD 0
    ∧ (UpperConfidenceBound.forward post beta true [x]).headD 0
        - (PosteriorMean.forward post [x]).headD 0
      ≤ (UpperConfidenceBound.forward post beta' true [x]).headD 0
        - (PosteriorMean.forward post [x]).headD 0 := by
  have hdiff : ∀ b : ℝ,
      (UpperConfidenceBound.forward post b true [x]).headD 0
        - (PosteriorMean.forward post [x]).headD 0
      = Real.sqrt (b * (post x).2) := by
    intro b
    simp [UpperConfidenceBound.forward, PosteriorMean.forward, ucbCore]
  refine ⟨hdiff beta, ?_, ?_⟩
  · rw [hdiff beta]
    exact Real.sqrt_nonneg _
  · rw [hdiff beta, hdiff beta']
    exact Real.sqrt_le_sqrt (mul_le_mul_of_nonneg_right hbb hvar)

/-- Witness for C6 at the posterior marginal `(mean, variance) = (0, 1)` with
`beta = 1`, `beta' = 4`. -/
theorem C6_ucb_minus_mean_witness :
    (0 : ℝ) ≤ 1 ∧ (0 : ℝ) ≤ 1 ∧ (1 : ℝ) ≤ 4 ∧
      ((UpperConfidenceBound.forward (fun _ : Unit => ((0 : ℝ), 1)) 1 true [()]).headD 0
          - (PosteriorMean.forward (fun _ : Unit => ((0 : ℝ), 1)) [()]).headD 0
        = Real.sqrt (1 * 1)
      ∧ 0 ≤ (UpperConfidenceBound.forward (fun _ : Unit => ((0 : ℝ), 1)) 1 true [()]).headD 0
          - (PosteriorMean.forward (fun _ : Unit => ((0 : ℝ), 1)) [()]).headD 0
      ∧ (UpperConfidenceBound.forward (fun _ : Unit => ((0 : ℝ), 1)) 1 true [()]).headD 0
          - (PosteriorMean.forward (fun _ : Unit => ((0 : ℝ), 1)) [()]).headD 0
        ≤ (UpperConfidenceBound.forward (fun _ : Unit => ((0 : ℝ), 1)) 4 true [()]).headD 0
          - (PosteriorMean.forward (fun _ : Unit => ((0 : ℝ), 1)) [()]).headD 0) :=
  ⟨by norm_num, by norm_num, by norm_num,
    C6_ucb_minus_mean (fun _ : Unit => ((0 : ℝ), 1)) () 1 4
      (by norm_num) (by norm_num) (by norm_num)⟩

/-- C7: every scoring entry point maps a candidate batch to a score list with
exactly the batch length (the trailing single-point and feature dimensions
are consumed by the posterior map). -/
theorem C7_batch_shapes {α : Type} (post : α → ℝ × ℝ)
    (postMulti : α → List ℝ × List ℝ) (fantasyPost : α → List (ℝ × ℝ))
    (best_f beta : ℝ) (best_fs : List ℝ) (objective_index : ℕ)
    (c : ConstraintGroups ℝ) (maximize : Bool) (X : List α) :
    (ExpectedImprovement.forward post best_f maximize X).length = X.length
    ∧ (PosteriorMean.forward post X).length = X.length
    ∧ (ProbabilityOfImprovement.forward post best_f maximize X).length = X.length
    ∧ (UpperConfidenceBound.forward post beta maximize X).length = X.length
    ∧ (ConstrainedExpectedImprovement.forward postMulti best_f objective_index
        c maximize X).length = X.length
    ∧ (NoisyExpectedImprovement.forward fantasyPost best_fs maximize X).length
        = X.length := by
  refine ⟨?_, ?_, ?_, ?_, ?_, ?_⟩ <;>
    simp [ExpectedImprovement.forward, PosteriorMean.forward,
      ProbabilityOfImprovement.forward, UpperConfidenceBound.forward,
      ConstrainedExpectedImprovement.forward, NoisyExpectedImprovement.forward,
      eiForwardGrid]

/-- C2: the feasibility probability of `ConstrainedExpectedImprovement`
starts at 1 for every batch element and is multiplied, per lower-only
constraint, by `1 - Phi((lower - mu_i)/sigma_i)`; per upper-only constraint,
by `Phi((upper - mu_i)/sigma_i)`; per two-sided constraint, by
`Phi((upper - mu_i)/sigma_i) - Phi((lower - mu_i)/sigma_i)`; multiplying
within each group and then across groups. -/
theorem C2_prob_feas_formula (means sigmas : List ℝ) (c : ConstraintGroups ℝ) :
    computeProbFeas means sigmas c = probFeasSpec means sigmas c := by
  simp only [computeProbFeas, probFeasSpec, normalCDF, prodIfLength]

/-- C3 counterexample: at posterior variance 0 (with mean = best_f = 0 and
maximize = true) the unconstrained-EI factor computed by
`ConstrainedExpectedImprovement` (which floors the standard deviation after
the square root) differs from the `ExpectedImprovement` value (which floors
the variance before the square root). -/
theorem C3_cei_factor_counterexample :
    ceiObjFactor 0 0 0 true ≠ eiCore 0 0 0 true := by
  have h1 : ceiObjFactor 0 0 0 true = 1e-9 * stdNormalPDF 0 := by
    unfold ceiObjFactor clampMin
    rw [Real.sqrt_zero]
    rw [max_eq_right (by norm_num : (0 : ℝ) ≤ 1e-9)]
    norm_num
  have h2 : eiCore 0 0 0 true = Real.sqrt 1e-9 * stdNormalPDF 0 := by
    unfold eiCore clampMin
    rw [max_eq_right (by norm_num : (0 : ℝ) ≤ 1e-9)]
    norm_num
  rw [h1, h2]
  intro h
  have hne : Real.sqrt 1e-9 ≠ (1e-9 : ℝ) := by
    intro hs
    have hsq := Real.sq_sqrt (by norm_num : (0 : ℝ) ≤ 1e-9)
    rw [hs] at hsq
    norm_num at hsq
  have hp : stdNormalPDF 0 ≠ 0 := (stdNormalPDF_pos 0).ne'
  exact hne (mul_right_cancel₀ hp h).symm

/-- C3 amended: the unconstrained-EI factor of
`ConstrainedExpectedImprovement` equals the `ExpectedImprovement` value on
the same marginal whenever the variance is at least `1e-9` (the two clamp
orders agree exactly on that region). -/
theorem C3_cei_factor_amended (mean variance best_f : ℝ) (maximize : Bool)
    (hv : 1e-9 ≤ variance) :
    ceiObjFactor mean variance best_f maximize
      = eiCore mean variance best_f maximize := by
  unfold ceiObjFactor eiCore clampMin
  rw [max_sqrt_floor_eq hv, max_eq_left hv]

/-- Witness for the amended C3 at variance 1. -/
theorem C3_cei_factor_amended_witness :
    (1e-9 : ℝ) ≤ 1 ∧ ceiObjFactor 0 1 0 true = eiCore 0 1 0 true :=
  ⟨by norm_num, C3_cei_factor_amended 0 1 0 true (by norm_num)⟩

/-- C4: `NoisyExpectedImprovement` takes `best_f` per fantasy as the maximum
(minimum when minimizing) of that fantasy's sampled targets, broadcasts every
candidate against every fantasy, evaluates EI per fantasy, and returns the
mean across the fantasy dimension, with output length equal to the batch
length. -/
theorem C4_nei_fantasy_protocol {α : Type} (fantasyPost : α → List (ℝ × ℝ))
    (fantasies : List (List ℝ)) (maximize : Bool) (X : List α) :
    neiBestF fantasies true = fantasies.map tensorMaxLastDim
    ∧ neiBestF fantasies false = fantasies.map tensorMinLastDim
    ∧ NoisyExpectedImprovement.forward fantasyPost (neiBestF fantasies maximize)
        maximize X
      = X.map (fun x => listMean (List.zipWith
          (fun p bf => eiCore p.1 p.2 bf maximize)
          (fantasyPost x) (neiBestF fantasies maximize)))
    ∧ (NoisyExpectedImprovement.forward fantasyPost (neiBestF fantasies maximize)
        maximize X).length = X.length := by
  refine ⟨rfl, rfl, ?_, ?_⟩
  · unfold NoisyExpectedImprovement.forward eiForwardGrid
    rw [List.map_map, List.map_map]
    rfl
  · simp [NoisyExpectedImprovement.forward, eiForwardGrid]

/-- C8: `ConstrainedExpectedImprovement` construction fails exactly when the
constraint mapping is empty, when the objective index is among the
constrained indices, or when some two-sided bound has `upper <= lower`; it
succeeds when none of these hold. -/
theorem C8_cei_construction_validation (objective_index : ℕ)
    (constraints : List (ℕ × Option ℚ × Option ℚ)) :
    exceptOk (preprocessConstraintBounds objective_index constraints) = true ↔
      (constraints ≠ []
        ∧ objective_index ∉ constraints.map Prod.fst
        ∧ ∀ e ∈ constraints, ∀ lo hi, e.2 = (some lo, some hi) → lo < hi) := by
  unfold preprocessConstraintBounds
  by_cases h0 : constraints.length = 0
  · rw [if_pos h0]
    have hnil : constraints = [] := List.length_eq_zero.1 h0
    subst hnil
    simp [exceptOk]
  · rw [if_neg h0]
    have hne : constraints ≠ [] := fun h => h0 (by rw [h]; rfl)
    by_cases hmem : objective_index ∈ constraints.map Prod.fst
    · rw [if_pos hmem]
      constructor
      · intro h
        simp [exceptOk] at h
      · rintro ⟨-, hno, -⟩
        exact absurd hmem hno
    · rw [if_neg hmem]
      rw [classify_ok_iff]
      constructor
      · intro h
        exact ⟨hne, hmem, h⟩
      · rintro ⟨-, -, h⟩
        exact h

/-- C9 counterexample: a constraint entry whose lower and upper bounds are
both `None` is accepted at construction (and recorded in no group), so the
claim that such an entry is rejected is false. -/
theorem C9_both_none_counterexample :
    preprocessConstraintBounds 1 [(0, (none : Option ℚ), (none : Option ℚ))]
      = Except.ok (ConstraintGroups.empty ℚ) := rfl

/-- C9 amended: `_preprocess_constraint_bounds` does not require a finite
bound: an entry with both bounds `None` matches no branch of the
classification and is silently skipped, leaving the result unchanged. -/
theorem C9_both_none_amended (k : ℕ) (rest : List (ℕ × Option ℚ × Option ℚ)) :
    classifyConstraints ((k, (none : Option ℚ), (none : Option ℚ)) :: rest)
      = classifyConstraints rest := by
  rw [classifyConstraints]

/-- C10 counterexample: constructing `NoisyExpectedImprovement` on a
`FixedNoiseGP` model with `num_fantasies = 0` passes the constructor's
validation (no exception is raised), so the claim that a non-positive
fantasy count is rejected is false. -/
theorem C10_no_fantasy_count_validation :
    NoisyExpectedImprovement.initValidation true 0 = Except.ok () := rfl

/-- C10 amended: the only construction-time check of
`NoisyExpectedImprovement.__init__` is the model-type check; construction
succeeds exactly when the model is a `FixedNoiseGP`, for every
`num_fantasies`, including non-positive values. -/
theorem C10_amended_no_fantasy_check (modelIsFixedNoiseGP : Bool)
    (num_fantasies : ℤ) :
    exceptOk (NoisyExpectedImprovement.initValidation modelIsFixedNoiseGP
      num_fantasies) = modelIsFixedNoiseGP := by
  cases modelIsFixedNoiseGP <;> rfl

end BoAnalytic
